import Mathlib

/-!
Shallow embedding of the command-line shell implemented in `src/app/main.py`.

Python strings are Lean `String`; the filesystem and the process environment
are oracles (`FS`, `Env`) passed explicitly; side effects of one executed line
are recorded as a trace of events (`Ev`).  Tokenization (`shlex.split`, the
out-of-scope Tokenizer collaborator) is not modelled: the registry model
`executeParts` starts from the token sequence, exactly the `parts` value that
`CommandRegistry.execute` computes on its first line.
-/

/-- Oracle for the environment variables the shell reads (`PATH`, `HOME`).
`none` models an unset variable. -/
structure Env where
  path : Option String
  home : Option String

/-- Oracle for the filesystem primitives the shell calls.  `openOk p m` tells
whether `open(p, m)` succeeds (otherwise `IOError`); `chdirRes cwd p` is the
working directory resulting from a successful `os.chdir(p)` issued at `cwd`. -/
structure FS where
  isFile : String → Bool
  canExec : String → Bool
  isDir : String → Bool
  listDirOk : String → Bool
  listDir : String → List String
  openOk : String → String → Bool
  chdirOk : String → Bool
  chdirRes : String → String → String

/-- Python `s.startswith(p)` on the underlying character sequences. -/
def strStartsWith (s p : String) : Bool := p.data.isPrefixOf s.data

/-- Helper for `splitColon`: Python `str.split(":")` on character lists. -/
def splitColonCh : List Char → List (List Char)
  | [] => [[]]
  | c :: cs =>
    match splitColonCh cs with
    | [] => []
    | g :: gs => if c = ':' then [] :: g :: gs else (c :: g) :: gs

/-- Python `s.split(":")`; in particular `"".split(":") == [""]`. -/
def splitColon (s : String) : List String := (splitColonCh s.data).map (fun l => ⟨l⟩)

/-- Python `os.path.join(p, name)` for the cases arising here: an absolute
second component wins; joining with the empty string yields the bare name. -/
def os_path_join (p name : String) : String :=
  if strStartsWith name "/" then name
  else if p = "" then name
  else if strStartsWith (⟨p.data.reverse⟩ : String) "/" then p ++ name
  else p ++ "/" ++ name

/-- The ordered directory list obtained from `os.getenv("PATH", "").split(":")`. -/
def pathDirs (env : Env) : List String := splitColon (env.path.getD "")

/-- The per-directory test of `find_executable` (source line 13):
`os.path.isfile(full_path) and os.access(full_path, os.X_OK)`. -/
def execOk (fs : FS) (command_name d : String) : Bool :=
  fs.isFile (os_path_join d command_name) && fs.canExec (os_path_join d command_name)

/-- The scanning loop of `find_executable` (source lines 11-15). -/
def findExecGo (fs : FS) (command_name : String) : List String → Option String
  | [] => none
  | p :: ps =>
    if execOk fs command_name p then some (os_path_join p command_name)
    else findExecGo fs command_name ps

/-- `find_executable` (source lines 8-15): search the PATH directories in
order for a regular, executable file named `command_name`. -/
def find_executable (env : Env) (fs : FS) (command_name : String) : Option String :=
  findExecGo fs command_name (pathDirs env)

/-- Lexicographic (code-point) comparison of character lists, Python `<=` on
strings restricted to what `sorted` needs. -/
def lexLe : List Char → List Char → Bool
  | [], _ => true
  | _ :: _, [] => false
  | a :: as, b :: bs => if a < b then true else if a = b then lexLe as bs else false

/-- Python string `<=`, used to model `sorted(...)`. -/
def strLe (a b : String) : Bool := lexLe a.data b.data

/-- The sorting relation for `sorted(...)` as a `Prop`. -/
def cmdLe : String → String → Prop := fun a b => strLe a b = true

instance : DecidableRel cmdLe := fun a b => inferInstanceAs (Decidable (strLe a b = true))

/-- Entries of one PATH directory that `CommandCompleter.find_executables`
keeps (source line 47): readable listing, `os.access(..., X_OK)` only —
note there is no `isfile` test in this enumeration. -/
def dirExecs (fs : FS) (p : String) : List String :=
  if fs.isDir p then
    (if fs.listDirOk p then (fs.listDir p).filter (fun f => fs.canExec (os_path_join p f)) else [])
  else []

/-- `CommandCompleter.find_executables` (source lines 40-51):
`sorted(set(...))` over all PATH directories. -/
def find_executables (env : Env) (fs : FS) : List String :=
  List.insertionSort cmdLe (((pathDirs env).flatMap (dirExecs fs)).dedup)

/-- Entries of one PATH directory that the module-level
`get_executables_in_path` keeps (source lines 18-31): here both
`os.path.isfile` and `os.access(..., X_OK)` are required. -/
def dirExecsStrict (fs : FS) (p : String) : List String :=
  if fs.isDir p then
    (if fs.listDirOk p then
      (fs.listDir p).filter
        (fun f => fs.isFile (os_path_join p f) && fs.canExec (os_path_join p f))
     else [])
  else []

/-- `get_executables_in_path` (source lines 18-31). -/
def get_executables_in_path (env : Env) (fs : FS) : List String :=
  List.insertionSort cmdLe (((pathDirs env).flatMap (dirExecsStrict fs)).dedup)

/-- One step of the shortening loop of `longest_common_prefix` (source lines
58-62): `while not word.startswith(prefix): prefix = prefix[:-1]`.  The first
argument is fuel; `p.length + 1` steps always suffice because the empty list
is a prefix of every word, so the fuel never runs out. -/
def shortenPfxGo : Nat → List Char → List Char → List Char
  | 0, _, _ => []
  | n + 1, word, p => if p.isPrefixOf word then p else shortenPfxGo n word p.dropLast

/-- Shorten `p` from the right until it is a prefix of `word`. -/
def shortenPfx (word p : List Char) : List Char := shortenPfxGo (p.length + 1) word p

/-- `CommandCompleter.longest_common_prefix` (source lines 53-63). -/
def longestCommonPfx (words : List String) : String :=
  match words with
  | [] => ""
  | w :: ws => ⟨ws.foldl (fun pfx word => shortenPfx word.data pfx) w.data⟩

/-- The mutable state of `CommandCompleter` (source lines 34-38). -/
structure CState where
  matchList : List String
  last_text : String
  match_index : Int
  tab_count : Nat
deriving DecidableEq

/-- The initial `CommandCompleter` state set in `__init__`. -/
def initState : CState :=
  { matchList := [], last_text := "", match_index := -1, tab_count := 0 }

/-- One completion call's observable output: the value returned to readline,
whether the bell was printed, and the candidate list displayed (if any). -/
structure COut where
  ret : Option String
  bell : Bool
  shown : Option (List String)
deriving DecidableEq

/-- The hardcoded builtin list inside `CommandCompleter.completer`
(source line 67) — note it has only three names. -/
def builtinsC : List String := ["echo", "exit", "type"]

/-- `all_commands` of `CommandCompleter.completer` (source line 69):
`sorted(set(builtins + external_cmds))`. -/
def allCommands (env : Env) (fs : FS) : List String :=
  List.insertionSort cmdLe ((builtinsC ++ find_executables env fs).dedup)

/-- The filtered match list of source line 73. -/
def matchesFor (env : Env) (fs : FS) (text : String) : List String :=
  (allCommands env fs).filter (fun cmd => strStartsWith cmd text)

/-- `CommandCompleter.completer` (source lines 65-97), returning the observable
output together with the successor state. -/
def completer (env : Env) (fs : FS) (st : CState) (text : String) (state : Nat) :
    COut × CState :=
  if state = 0 then
    let st1 := if text ≠ st.last_text then
        { matchList := matchesFor env fs text, last_text := text,
          match_index := -1, tab_count := 0 }
      else st
    if st1.matchList.length = 1 then
      ({ ret := some (st1.matchList.headI ++ " "), bell := false, shown := none }, st1)
    else if 1 < st1.matchList.length then
      if longestCommonPfx st1.matchList ≠ text then
        ({ ret := some (longestCommonPfx st1.matchList), bell := false, shown := none }, st1)
      else
        let st2 := { st1 with tab_count := st1.tab_count + 1 }
        if st2.tab_count = 1 then
          ({ ret := none, bell := true, shown := none }, st2)
        else if st2.tab_count = 2 then
          ({ ret := none, bell := false, shown := some st2.matchList }, st2)
        else
          ({ ret := some (st2.matchList.getD
                ((st2.match_index + 1) % (st2.matchList.length : Int)).toNat "" ++ " "),
             bell := false, shown := none },
           { st2 with match_index := (st2.match_index + 1) % (st2.matchList.length : Int) })
    else ({ ret := none, bell := false, shown := none }, st1)
  else ({ ret := none, bell := false, shown := none }, st)

/-- One TAB press: readline invokes the completer with `state = 0`. -/
def press (env : Env) (fs : FS) (text : String) (st : CState) : COut × CState :=
  completer env fs st text 0

/-- The completer state after `n` successive presses with the same text. -/
def pressN (env : Env) (fs : FS) (text : String) (st : CState) : Nat → CState
  | 0 => st
  | n + 1 => (press env fs text (pressN env fs text st n)).2

/-- A stream destination: the process's inherited stdout/stderr, or an opened
file handle with its path and mode. -/
inductive Target where
  | stdoutInherit : Target
  | stderrInherit : Target
  | file : String → String → Target
deriving DecidableEq

/-- Observable effects of executing one line.  `openFile p "w"` denotes
`open(p, "w")` (create/truncate), `openFile p "a"` denotes append-mode open;
`dispatch argv` marks the call of `_execute_command` with that argument
vector; `spawn` is `subprocess.run`; `chdir` is `os.chdir`. -/
inductive Ev where
  | openFile : String → String → Ev
  | closeFile : String → String → Ev
  | write : Target → String → Ev
  | dispatch : List String → Ev
  | spawn : List String → Target → Target → Ev
  | chdir : String → Ev
deriving DecidableEq

/-- Whether control returned normally or a `sys.exit(n)` (`SystemExit`,
uncaught by the REPL's `except Exception`) is propagating. -/
inductive Outcome where
  | ok : Outcome
  | exited : Nat → Outcome
deriving DecidableEq

/-- The names registered in `main` (source lines 277-282). -/
def registryNames : List String := ["echo", "exit", "type", "pwd", "cd"]

/-- Python `" ".join(args)`. -/
def joinSpace (args : List String) : String := String.intercalate " " args

/-- `EchoCommand.execute` (source lines 114-116). -/
def echoExec (args : List String) (t1 : Target) : List Ev :=
  [Ev.write t1 (joinSpace args)]

/-- Python `s.isdigit()` restricted to ASCII digits. -/
def pyIsDigit (s : String) : Bool := !s.data.isEmpty && s.data.all Char.isDigit

/-- Python `int(s)` for an all-digits string (48 is the code of the digit 0). -/
def pyParseNat (s : String) : Nat := s.data.foldl (fun a c => a * 10 + (c.toNat - 48)) 0

/-- The exit status computed by `ExitCommand.execute` (source lines 119-123). -/
def exitStatus (args : List String) : Nat :=
  match args with
  | [a] => if pyIsDigit a then pyParseNat a else 0
  | _ => 0

/-- `TypeCommand.execute` (source lines 126-145); the registry it consults is
the one populated in `main`. -/
def typeExec (env : Env) (fs : FS) (args : List String) (t1 t2 : Target) : List Ev :=
  match args with
  | [] => [Ev.write t2 "type: missing argument"]
  | command_name :: _ =>
    if registryNames.contains command_name then
      [Ev.write t1 (command_name ++ " is a shell builtin")]
    else
      match find_executable env fs command_name with
      | some p => [Ev.write t1 (command_name ++ " is " ++ p)]
      | none => [Ev.write t2 (command_name ++ ": not found")]

/-- `CdCommand.execute` (source lines 252-272): events plus the resulting
working directory. -/
def cdExec (env : Env) (fs : FS) (cwd : String) (args : List String) (t2 : Target) :
    List Ev × String :=
  if args.length ≠ 1 then ([Ev.write t2 "cd: missing operand"], cwd)
  else
    let td := if args.headI = "~" then env.home.getD "/" else args.headI
    if fs.isDir td then
      if fs.chdirOk td then ([Ev.chdir td], fs.chdirRes cwd td)
      else ([Ev.write t2 ("cd: " ++ td ++ ": Permission denied")], cwd)
    else ([Ev.write t2 ("cd: " ++ td ++ ": No such file or directory")], cwd)

/-- `CommandRegistry.run_external_command` (source lines 235-243).  The spawn
primitive itself is an external collaborator and is recorded as one event. -/
def run_external_command (env : Env) (fs : FS) (name : String) (args : List String)
    (t1 t2 : Target) : List Ev :=
  match find_executable env fs name with
  | some _ => [Ev.spawn (name :: args) t1 t2]
  | none => [Ev.write t2 (name ++ ": command not found")]

/-- `CommandRegistry._execute_command` (source lines 222-233) for the registry
populated in `main`.  The leading `Ev.dispatch` event records the call and its
argument vector. -/
def execCommand (env : Env) (fs : FS) (cwd : String) (parts : List String)
    (t1 t2 : Target) : List Ev × String × Outcome :=
  match parts with
  | [] => ([Ev.dispatch []], cwd, Outcome.ok)
  | command_name :: args =>
    if command_name = "echo" then
      (Ev.dispatch parts :: echoExec args t1, cwd, Outcome.ok)
    else if command_name = "exit" then
      ([Ev.dispatch parts], cwd, Outcome.exited (exitStatus args))
    else if command_name = "type" then
      (Ev.dispatch parts :: typeExec env fs args t1 t2, cwd, Outcome.ok)
    else if command_name = "pwd" then
      ([Ev.dispatch parts, Ev.write t1 cwd], cwd, Outcome.ok)
    else if command_name = "cd" then
      (Ev.dispatch parts :: (cdExec env fs cwd args t2).1,
       (cdExec env fs cwd args t2).2, Outcome.ok)
    else
      (Ev.dispatch parts :: run_external_command env fs command_name args t1 t2,
       cwd, Outcome.ok)

/-- The close performed at source lines 217-220 for one redirected stream. -/
def targetCloses (t : Target) : List Ev :=
  match t with
  | Target.file p m => [Ev.closeFile p m]
  | _ => []

/-- The tail of `CommandRegistry.execute` (source lines 214-220): run
`_execute_command`, then close redirected streams — unless a `SystemExit`
propagates, in which case the close lines are skipped. -/
def finishExec (env : Env) (fs : FS) (cwd : String) (command_parts : List String)
    (t1 t2 : Target) : List Ev × String × Outcome :=
  match execCommand env fs cwd command_parts t1 t2 with
  | (es, cwd2, Outcome.ok) => (es ++ targetCloses t1 ++ targetCloses t2, cwd2, Outcome.ok)
  | (es, cwd2, Outcome.exited n) => (es, cwd2, Outcome.exited n)

/-- Error texts of source lines 174, 186, 198, 210 (the appended Python
exception detail `": {e}"` is OS-dependent and elided). -/
def msgStdoutAppendErr : String := "Error handling stdout append redirection"

/-- Error text of the stdout overwrite handler. -/
def msgStdoutErr : String := "Error handling stdout redirection"

/-- Error text of the stderr append handler. -/
def msgStderrAppendErr : String := "Error handling stderr append redirection"

/-- Error text of the stderr overwrite handler. -/
def msgStderrErr : String := "Error handling stderr redirection"

/-- Source line 192 resp. 204: the index Python computes for the stderr
operator (an index into the full token list `parts`). -/
def stderrAppendIdx (parts : List String) : Nat := parts.indexOf "2>>"

/-- Index of the first `2>` token. -/
def stderrWriteIdx (parts : List String) : Nat := parts.indexOf "2>"

/-- Source line 168: `parts.index(">>") if ">>" in parts else parts.index("1>>")`. -/
def appendOpIdx (parts : List String) : Nat :=
  if parts.contains ">>" then parts.indexOf ">>" else parts.indexOf "1>>"

/-- Source line 180: `parts.index(">") if ">" in parts else parts.index("1>")`. -/
def writeOpIdx (parts : List String) : Nat :=
  if parts.contains ">" then parts.indexOf ">" else parts.indexOf "1>"

/-- The stderr half of `CommandRegistry.execute` (source lines 190-220):
handle `2>>`/`2>` redirection, then dispatch and close.  `command_parts` is
the argument vector left over from the stdout half; note that the slice index
is computed against the full token list `parts`, exactly as in the source. -/
def afterStdout (env : Env) (fs : FS) (cwd : String) (parts command_parts : List String)
    (t1 : Target) : List Ev × String × Outcome :=
  if parts.contains "2>>" then
    match parts[stderrAppendIdx parts + 1]? with
    | none => ([Ev.write Target.stderrInherit msgStderrAppendErr], cwd, Outcome.ok)
    | some error_file =>
      if fs.openOk error_file "a" then
        match finishExec env fs cwd (command_parts.take (stderrAppendIdx parts)) t1
            (Target.file error_file "a") with
        | (es, rest) => (Ev.openFile error_file "a" :: es, rest)
      else ([Ev.write Target.stderrInherit msgStderrAppendErr], cwd, Outcome.ok)
  else if parts.contains "2>" then
    match parts[stderrWriteIdx parts + 1]? with
    | none => ([Ev.write Target.stderrInherit msgStderrErr], cwd, Outcome.ok)
    | some error_file =>
      if fs.openOk error_file "w" then
        match finishExec env fs cwd (command_parts.take (stderrWriteIdx parts)) t1
            (Target.file error_file "w") with
        | (es, rest) => (Ev.openFile error_file "w" :: es, rest)
      else ([Ev.write Target.stderrInherit msgStderrErr], cwd, Outcome.ok)
  else finishExec env fs cwd command_parts t1 Target.stderrInherit

/-- `CommandRegistry.execute` (source lines 156-220) from the token sequence
`parts` onward: stdout redirection handling (append class checked before the
truncate class), then the stderr half, dispatch, and stream teardown. -/
def executeParts (env : Env) (fs : FS) (cwd : String) (parts : List String) :
    List Ev × String × Outcome :=
  if parts.contains ">>" || parts.contains "1>>" then
    match parts[appendOpIdx parts + 1]? with
    | none => ([Ev.write Target.stderrInherit msgStdoutAppendErr], cwd, Outcome.ok)
    | some output_file =>
      if fs.openOk output_file "a" then
        match afterStdout env fs cwd parts (parts.take (appendOpIdx parts))
            (Target.file output_file "a") with
        | (es, rest) => (Ev.openFile output_file "a" :: es, rest)
      else ([Ev.write Target.stderrInherit msgStdoutAppendErr], cwd, Outcome.ok)
  else if parts.contains ">" || parts.contains "1>" then
    match parts[writeOpIdx parts + 1]? with
    | none => ([Ev.write Target.stderrInherit msgStdoutErr], cwd, Outcome.ok)
    | some output_file =>
      if fs.openOk output_file "w" then
        match afterStdout env fs cwd parts (parts.take (writeOpIdx parts))
            (Target.file output_file "w") with
        | (es, rest) => (Ev.openFile output_file "w" :: es, rest)
      else ([Ev.write Target.stderrInherit msgStdoutErr], cwd, Outcome.ok)
  else afterStdout env fs cwd parts parts Target.stdoutInherit

/-- The REPL loop of `main` (source lines 284-291) over pre-tokenized lines:
`except Exception` does not catch `SystemExit`, so an `exit` invocation
terminates the process with the propagated status (`some n`); exhausting the
input (EOF) ends the loop normally (`none`). -/
def repl (env : Env) (fs : FS) (cwd : String) : List (List String) →
    List Ev × String × Option Nat
  | [] => ([], cwd, none)
  | l :: ls =>
    match executeParts env fs cwd l with
    | (es, cwd2, Outcome.exited n) => (es, cwd2, some n)
    | (es, cwd2, Outcome.ok) =>
      match repl env fs cwd2 ls with
      | (es2, cwd3, r) => (es ++ es2, cwd3, r)

/-! Selection functions describing, for statements of theorems, which operator
occurrence the source's fixed search order picks for each stream class. -/

/-- Whether a stdout-class redirection operator occurs in the token list. -/
def stdoutPresent (parts : List String) : Bool :=
  (parts.contains ">>" || parts.contains "1>>") || (parts.contains ">" || parts.contains "1>")

/-- Whether a stderr-class redirection operator occurs in the token list. -/
def stderrPresent (parts : List String) : Bool :=
  parts.contains "2>>" || parts.contains "2>"

/-- Index at which the stdout half cuts the argument vector: the position of
the operator picked by the fixed search order (`>>`, `1>>`, `>`, `1>`), or the
list length when no stdout-class operator occurs. -/
def stdoutCut (parts : List String) : Nat :=
  if parts.contains ">>" || parts.contains "1>>" then appendOpIdx parts
  else if parts.contains ">" || parts.contains "1>" then writeOpIdx parts
  else parts.length

/-- Index of the stderr-class operator picked by the fixed search order
(`2>>` before `2>`), or the list length when none occurs. -/
def stderrCut (parts : List String) : Nat :=
  if parts.contains "2>>" then stderrAppendIdx parts
  else if parts.contains "2>" then stderrWriteIdx parts
  else parts.length

/-- Open mode of the selected stdout-class operator. -/
def stdoutMode (parts : List String) : String :=
  if parts.contains ">>" || parts.contains "1>>" then "a" else "w"

/-- Open mode of the selected stderr-class operator. -/
def stderrMode (parts : List String) : String :=
  if parts.contains "2>>" then "a" else "w"

/-- The filename token following the selected stdout-class operator, if any. -/
def stdoutFile (parts : List String) : Option String := parts[stdoutCut parts + 1]?

/-- The filename token following the selected stderr-class operator, if any. -/
def stderrFile (parts : List String) : Option String := parts[stderrCut parts + 1]?

/-- Whether the stdout half reaches the stderr half (no missing filename, no
failed open) — vacuously true when no stdout-class operator occurs. -/
def stdoutProceeds (fs : FS) (parts : List String) : Bool :=
  !stdoutPresent parts ||
    (match stdoutFile parts with
     | some f => fs.openOk f (stdoutMode parts)
     | none => false)

/-- Whether the stderr half reaches dispatch. -/
def stderrProceeds (fs : FS) (parts : List String) : Bool :=
  !stderrPresent parts ||
    (match stderrFile parts with
     | some f => fs.openOk f (stderrMode parts)
     | none => false)

/-- The stdout target acquired for dispatch (when the opens succeed). -/
def stdoutTargetOf (parts : List String) : Target :=
  if stdoutPresent parts then
    (match stdoutFile parts with
     | some f => Target.file f (stdoutMode parts)
     | none => Target.stdoutInherit)
  else Target.stdoutInherit

/-- The stderr target acquired for dispatch (when the opens succeed). -/
def stderrTargetOf (parts : List String) : Target :=
  if stderrPresent parts then
    (match stderrFile parts with
     | some f => Target.file f (stderrMode parts)
     | none => Target.stderrInherit)
  else Target.stderrInherit

/-- The open event a file target contributes (none for an inherited stream). -/
def targetOpens (t : Target) : List Ev :=
  match t with
  | Target.file p m => [Ev.openFile p m]
  | _ => []

/-- Modelled from the spec (section 4.5): the candidate set the specification
prescribes — all registered built-in names united with `PathResolver.enumerate`
(the regular-executable-file enumeration), deduplicated and sorted.  The code
of `CommandCompleter.completer` is compared against this. -/
def specCandidateSet (env : Env) (fs : FS) : List String :=
  List.insertionSort cmdLe ((registryNames ++ get_executables_in_path env fs).dedup)

/-! Concrete oracles used by witnesses and counterexamples. -/

/-- A filesystem with no files, no directories, and always-succeeding opens. -/
def fs0 : FS :=
  { isFile := fun _ => false, canExec := fun _ => false, isDir := fun _ => false,
    listDirOk := fun _ => true, listDir := fun _ => [], openOk := fun _ _ => true,
    chdirOk := fun _ => true, chdirRes := fun c _ => c }

/-- An environment with `PATH` and `HOME` unset. -/
def env0 : Env := { path := none, home := none }

/-- Like `fs0` but opening the path `"bad"` fails. -/
def fs1 : FS :=
  { fs0 with openOk := fun p _ => !(p == "bad") }

/-- A filesystem where exactly the relative path `"foo"` is a regular
executable file. -/
def fs2 : FS :=
  { fs0 with isFile := fun p => p == "foo", canExec := fun p => p == "foo" }

/-- A filesystem where exactly `"/b/x"` is a regular executable file. -/
def fs4 : FS :=
  { fs0 with isFile := fun p => p == "/b/x", canExec := fun p => p == "/b/x" }

/-- An environment whose search path lists `/a` before `/b`. -/
def env4 : Env := { path := some "/a:/b", home := none }

/-- The argument vector that reaches dispatch when both redirection halves
succeed: tokens before the selected stdout operator, further truncated at the
selected stderr operator's index in the full token list. -/
def dispatchArgv (parts : List String) : List String :=
  parts.take (min (stdoutCut parts) (stderrCut parts))

/-- The dispatch-and-teardown tail executed when both redirection halves
succeed, with the acquired targets. -/
def finMain (env : Env) (fs : FS) (cwd : String) (parts : List String) :
    List Ev × String × Outcome :=
  finishExec env fs cwd (dispatchArgv parts) (stdoutTargetOf parts) (stderrTargetOf parts)

/-- Classification of the events a handler body can record: only writes,
directory changes and spawns — never an open, close, or dispatch. -/
def tailEv (e : Ev) : Prop :=
  (∃ t m, e = Ev.write t m) ∨ (∃ p, e = Ev.chdir p) ∨ (∃ a u v, e = Ev.spawn a u v)

/-- The `match_index` value held after `2 + k` presses of the disambiguation
staircase (`-1` until cycling starts, then the cycled position). -/
def cycIdx (len : Nat) : Nat → Int
  | 0 => -1
  | k + 1 => (k : Int) % (len : Int)

theorem targetCloses_mem {e : Ev} {t : Target} (h : e ∈ targetCloses t) :
    ∃ p m, t = Target.file p m ∧ e = Ev.closeFile p m := by
  cases t <;> simp [targetCloses] at h
  exact ⟨_, _, rfl, h⟩

theorem targetOpens_mem {e : Ev} {t : Target} (h : e ∈ targetOpens t) :
    ∃ p m, t = Target.file p m ∧ e = Ev.openFile p m := by
  cases t <;> simp [targetOpens] at h
  exact ⟨_, _, rfl, h⟩

theorem typeExec_tail (env : Env) (fs : FS) (args : List String) (t1 t2 : Target) :
    ∀ e ∈ typeExec env fs args t1 t2, tailEv e := by
  intro e he
  unfold typeExec at he
  split at he
  · simp at he; subst he; exact Or.inl ⟨_, _, rfl⟩
  · split at he
    · simp at he; subst he; exact Or.inl ⟨_, _, rfl⟩
    · split at he <;> (simp at he; subst he; exact Or.inl ⟨_, _, rfl⟩)

theorem cdExec_tail (env : Env) (fs : FS) (cwd : String) (args : List String) (t2 : Target) :
    ∀ e ∈ (cdExec env fs cwd args t2).1, tailEv e := by
  intro e he
  unfold cdExec at he
  split at he
  · simp at he; subst he; exact Or.inl ⟨_, _, rfl⟩
  · generalize (if args.headI = "~" then env.home.getD "/" else args.headI) = td at he
    dsimp only at he
    split at he
    · split at he
      · simp at he; subst he; exact Or.inr (Or.inl ⟨_, rfl⟩)
      · simp at he; subst he; exact Or.inl ⟨_, _, rfl⟩
    · simp at he; subst he; exact Or.inl ⟨_, _, rfl⟩

theorem runExternal_tail (env : Env) (fs : FS) (name : String) (args : List String)
    (t1 t2 : Target) : ∀ e ∈ run_external_command env fs name args t1 t2, tailEv e := by
  intro e he
  unfold run_external_command at he
  split at he
  · simp at he; subst he; exact Or.inr (Or.inr ⟨_, _, _, rfl⟩)
  · simp at he; subst he; exact Or.inl ⟨_, _, rfl⟩

theorem execCommand_shape (env : Env) (fs : FS) (cwd : String) (cp : List String)
    (t1 t2 : Target) :
    ∃ es, (execCommand env fs cwd cp t1 t2).1 = Ev.dispatch cp :: es ∧ ∀ e ∈ es, tailEv e := by
  unfold execCommand
  cases cp with
  | nil => exact ⟨[], rfl, by simp⟩
  | cons n args =>
    by_cases h1 : n = "echo"
    · refine ⟨echoExec args t1, by simp [h1], ?_⟩
      intro e he; simp [echoExec] at he; subst he; exact Or.inl ⟨_, _, rfl⟩
    · by_cases h2 : n = "exit"
      · exact ⟨[], by simp [h1, h2], by simp⟩
      · by_cases h3 : n = "type"
        · exact ⟨typeExec env fs args t1 t2, by simp [h1, h2, h3], typeExec_tail env fs args t1 t2⟩
        · by_cases h4 : n = "pwd"
          · refine ⟨[Ev.write t1 cwd], by simp [h1, h2, h3, h4], ?_⟩
            intro e he; simp at he; subst he; exact Or.inl ⟨_, _, rfl⟩
          · by_cases h5 : n = "cd"
            · exact ⟨(cdExec env fs cwd args t2).1, by simp [h1, h2, h3, h4, h5],
                cdExec_tail env fs cwd args t2⟩
            · exact ⟨run_external_command env fs n args t1 t2, by simp [h1, h2, h3, h4, h5],
                runExternal_tail env fs n args t1 t2⟩

theorem ec_dispatch_iff (env : Env) (fs : FS) (cwd : String) (cp : List String)
    (t1 t2 : Target) (a : List String) :
    Ev.dispatch a ∈ (execCommand env fs cwd cp t1 t2).1 ↔ a = cp := by
  obtain ⟨es, hes, htail⟩ := execCommand_shape env fs cwd cp t1 t2
  rw [hes]
  constructor
  · intro h
    rcases List.mem_cons.mp h with h | h
    · exact (Ev.dispatch.injEq _ _).mp h
    · rcases htail _ h with ⟨_, _, he⟩ | ⟨_, he⟩ | ⟨_, _, _, he⟩ <;> cases he
  · intro h; subst h; exact List.mem_cons_self _ _

theorem ec_no_open (env : Env) (fs : FS) (cwd : String) (cp : List String)
    (t1 t2 : Target) (p m : String) :
    Ev.openFile p m ∉ (execCommand env fs cwd cp t1 t2).1 := by
  obtain ⟨es, hes, htail⟩ := execCommand_shape env fs cwd cp t1 t2
  rw [hes]
  intro h
  rcases List.mem_cons.mp h with h | h
  · cases h
  · rcases htail _ h with ⟨_, _, he⟩ | ⟨_, he⟩ | ⟨_, _, _, he⟩ <;> cases he

theorem fin_outcome (env : Env) (fs : FS) (cwd : String) (cp : List String) (t1 t2 : Target) :
    (finishExec env fs cwd cp t1 t2).2.2 = (execCommand env fs cwd cp t1 t2).2.2 := by
  unfold finishExec
  rcases hec : execCommand env fs cwd cp t1 t2 with ⟨es, cwd2, oc⟩
  cases oc <;> simp

theorem fin_dispatch_iff (env : Env) (fs : FS) (cwd : String) (cp : List String)
    (t1 t2 : Target) (a : List String) :
    Ev.dispatch a ∈ (finishExec env fs cwd cp t1 t2).1 ↔ a = cp := by
  unfold finishExec
  rcases hec : execCommand env fs cwd cp t1 t2 with ⟨es, cwd2, oc⟩
  have hmem : Ev.dispatch a ∈ es ↔ a = cp := by
    have := ec_dispatch_iff env fs cwd cp t1 t2 a
    rw [hec] at this; exact this
  cases oc with
  | ok =>
    simp only [List.mem_append]
    constructor
    · intro h
      rcases h with (h | h) | h
      · exact hmem.mp h
      · rcases targetCloses_mem h with ⟨_, _, _, he⟩; cases he
      · rcases targetCloses_mem h with ⟨_, _, _, he⟩; cases he
    · intro h; exact Or.inl (Or.inl (hmem.mpr h))
  | exited n => exact hmem

theorem fin_no_open (env : Env) (fs : FS) (cwd : String) (cp : List String)
    (t1 t2 : Target) (p m : String) :
    Ev.openFile p m ∉ (finishExec env fs cwd cp t1 t2).1 := by
  unfold finishExec
  rcases hec : execCommand env fs cwd cp t1 t2 with ⟨es, cwd2, oc⟩
  have hmem : Ev.openFile p m ∉ es := by
    have := ec_no_open env fs cwd cp t1 t2 p m
    rw [hec] at this; exact this
  cases oc with
  | ok =>
    simp only [List.mem_append]
    rintro ((h | h) | h)
    · exact hmem h
    · rcases targetCloses_mem h with ⟨_, _, _, he⟩; cases he
    · rcases targetCloses_mem h with ⟨_, _, _, he⟩; cases he
  | exited n => exact hmem

theorem fin_ok_close (env : Env) (fs : FS) (cwd : String) (cp : List String)
    (t1 t2 : Target) (p m : String)
    (hok : (finishExec env fs cwd cp t1 t2).2.2 = Outcome.ok)
    (ht : t1 = Target.file p m ∨ t2 = Target.file p m) :
    Ev.closeFile p m ∈ (finishExec env fs cwd cp t1 t2).1 := by
  unfold finishExec at hok ⊢
  rcases hec : execCommand env fs cwd cp t1 t2 with ⟨es, cwd2, oc⟩
  rw [hec] at hok
  cases oc with
  | ok =>
    simp only [List.mem_append]
    rcases ht with ht | ht
    · exact Or.inl (Or.inr (by simp [ht, targetCloses]))
    · exact Or.inr (by simp [ht, targetCloses])
  | exited n => simp at hok

theorem stdoutCut_le (parts : List String) : stdoutCut parts ≤ parts.length := by
  unfold stdoutCut appendOpIdx writeOpIdx
  split_ifs <;> first | exact List.indexOf_le_length | exact le_refl _

theorem stderrCut_le (parts : List String) : stderrCut parts ≤ parts.length := by
  unfold stderrCut stderrAppendIdx stderrWriteIdx
  split_ifs <;> first | exact List.indexOf_le_length | exact le_refl _

theorem afterStdout_proceeds (env : Env) (fs : FS) (cwd : String)
    (parts cp : List String) (t1 : Target)
    (hcp : cp.length ≤ parts.length)
    (h : stderrProceeds fs parts = true) :
    afterStdout env fs cwd parts cp t1 =
      (targetOpens (stderrTargetOf parts) ++
        (finishExec env fs cwd (cp.take (stderrCut parts)) t1 (stderrTargetOf parts)).1,
       (finishExec env fs cwd (cp.take (stderrCut parts)) t1 (stderrTargetOf parts)).2) := by
  by_cases hA : "2>>" ∈ parts
  · have hP : stderrPresent parts = true := by simp [stderrPresent, hA]
    have hcut : stderrCut parts = stderrAppendIdx parts := by simp [stderrCut, hA]
    have hmode : stderrMode parts = "a" := by simp [stderrMode, hA]
    rcases hg : parts[stderrAppendIdx parts + 1]? with _ | f
    · exfalso
      have hfalse : stderrProceeds fs parts = false := by
        simp [stderrProceeds, hP, stderrFile, hcut, hg]
      rw [hfalse] at h; cases h
    · have hfile : stderrFile parts = some f := by simp [stderrFile, hcut, hg]
      by_cases ho : fs.openOk f "a"
      · have htgt : stderrTargetOf parts = Target.file f "a" := by
          simp [stderrTargetOf, hP, hfile, hmode]
        rcases hF : finishExec env fs cwd (cp.take (stderrAppendIdx parts)) t1
            (Target.file f "a") with ⟨es, rest⟩
        rw [htgt, hcut]
        simp [afterStdout, hA, hg, ho, hF, targetOpens]
      · exfalso
        have hfalse : stderrProceeds fs parts = false := by
          simp [stderrProceeds, hP, hfile, hmode, ho]
        rw [hfalse] at h; cases h
  · by_cases hB : "2>" ∈ parts
    · have hP : stderrPresent parts = true := by simp [stderrPresent, hA, hB]
      have hcut : stderrCut parts = stderrWriteIdx parts := by simp [stderrCut, hA, hB]
      have hmode : stderrMode parts = "w" := by simp [stderrMode, hA]
      rcases hg : parts[stderrWriteIdx parts + 1]? with _ | f
      · exfalso
        have hfalse : stderrProceeds fs parts = false := by
          simp [stderrProceeds, hP, stderrFile, hcut, hg]
        rw [hfalse] at h; cases h
      · have hfile : stderrFile parts = some f := by simp [stderrFile, hcut, hg]
        by_cases ho : fs.openOk f "w"
        · have htgt : stderrTargetOf parts = Target.file f "w" := by
            simp [stderrTargetOf, hP, hfile, hmode]
          rcases hF : finishExec env fs cwd (cp.take (stderrWriteIdx parts)) t1
              (Target.file f "w") with ⟨es, rest⟩
          rw [htgt, hcut]
          simp [afterStdout, hA, hB, hg, ho, hF, targetOpens]
        · exfalso
          have hfalse : stderrProceeds fs parts = false := by
            simp [stderrProceeds, hP, hfile, hmode, ho]
          rw [hfalse] at h; cases h
    · have hP : stderrPresent parts = false := by simp [stderrPresent, hA, hB]
      have hcut : stderrCut parts = parts.length := by simp [stderrCut, hA, hB]
      have htgt : stderrTargetOf parts = Target.stderrInherit := by
        simp [stderrTargetOf, hP]
      have htake : cp.take (stderrCut parts) = cp := by
        rw [hcut]; exact List.take_of_length_le hcp
      rw [htgt, htake]
      simp [afterStdout, hA, hB, targetOpens]

theorem afterStdout_abort (env : Env) (fs : FS) (cwd : String)
    (parts cp : List String) (t1 : Target)
    (h : stderrProceeds fs parts = false) :
    afterStdout env fs cwd parts cp t1 =
        ([Ev.write Target.stderrInherit msgStderrAppendErr], cwd, Outcome.ok) ∨
    afterStdout env fs cwd parts cp t1 =
        ([Ev.write Target.stderrInherit msgStderrErr], cwd, Outcome.ok) := by
  by_cases hA : "2>>" ∈ parts
  · left
    have hcut : stderrCut parts = stderrAppendIdx parts := by simp [stderrCut, hA]
    rcases hg : parts[stderrAppendIdx parts + 1]? with _ | f
    · simp [afterStdout, hA, hg]
    · have hfile : stderrFile parts = some f := by simp [stderrFile, hcut, hg]
      have ho : fs.openOk f "a" = false := by
        rcases hb : fs.openOk f "a"
        · rfl
        · exfalso
          have htrue : stderrProceeds fs parts = true := by
            simp [stderrProceeds, hfile, stderrMode, hA, hb]
          rw [htrue] at h; cases h
      simp [afterStdout, hA, hg, ho]
  · by_cases hB : "2>" ∈ parts
    · right
      have hcut : stderrCut parts = stderrWriteIdx parts := by simp [stderrCut, hA, hB]
      rcases hg : parts[stderrWriteIdx parts + 1]? with _ | f
      · simp [afterStdout, hA, hB, hg]
      · have hfile : stderrFile parts = some f := by simp [stderrFile, hcut, hg]
        have ho : fs.openOk f "w" = false := by
          rcases hb : fs.openOk f "w"
          · rfl
          · exfalso
            have htrue : stderrProceeds fs parts = true := by
              simp [stderrProceeds, hfile, stderrMode, hA, hb]
            rw [htrue] at h; cases h
        simp [afterStdout, hA, hB, hg, ho]
    · exfalso
      have htrue : stderrProceeds fs parts = true := by
        simp [stderrProceeds, stderrPresent, hA, hB]
      rw [htrue] at h; cases h

theorem executeParts_proceeds (env : Env) (fs : FS) (cwd : String) (parts : List String)
    (h1 : stdoutProceeds fs parts = true) (h2 : stderrProceeds fs parts = true) :
    executeParts env fs cwd parts =
      (targetOpens (stdoutTargetOf parts) ++ targetOpens (stderrTargetOf parts) ++
        (finMain env fs cwd parts).1,
       (finMain env fs cwd parts).2) := by
  have hle : ∀ k : Nat, (parts.take k).length ≤ parts.length := fun k => by
    rw [List.length_take]; exact min_le_right _ _
  by_cases hA : (">>" ∈ parts ∨ "1>>" ∈ parts)
  · have hP : stdoutPresent parts = true := by
      rcases hA with h | h <;> simp [stdoutPresent, h]
    have hcut : stdoutCut parts = appendOpIdx parts := by
      rcases hA with h | h <;> simp [stdoutCut, h]
    have hmode : stdoutMode parts = "a" := by
      rcases hA with h | h <;> simp [stdoutMode, h]
    rcases hg : parts[appendOpIdx parts + 1]? with _ | f
    · exfalso
      have hfalse : stdoutProceeds fs parts = false := by
        simp [stdoutProceeds, hP, stdoutFile, hcut, hg]
      rw [hfalse] at h1; cases h1
    · have hfile : stdoutFile parts = some f := by simp [stdoutFile, hcut, hg]
      by_cases ho : fs.openOk f "a"
      · have htgt : stdoutTargetOf parts = Target.file f "a" := by
          simp [stdoutTargetOf, hP, hfile, hmode]
        have has := afterStdout_proceeds env fs cwd parts (parts.take (appendOpIdx parts))
          (Target.file f "a") (hle _) h2
        have harg : (parts.take (appendOpIdx parts)).take (stderrCut parts) =
            dispatchArgv parts := by
          rw [List.take_take, dispatchArgv, hcut, Nat.min_comm]
        rw [harg] at has
        have hfm : finMain env fs cwd parts =
            finishExec env fs cwd (dispatchArgv parts) (Target.file f "a")
              (stderrTargetOf parts) := by
          rw [finMain, htgt]
        rw [htgt, hfm]
        rcases hG : finishExec env fs cwd (dispatchArgv parts) (Target.file f "a")
            (stderrTargetOf parts) with ⟨es, rest⟩
        rw [hG] at has
        rcases hA with h | h <;> simp [executeParts, h, hg, ho, has, targetOpens]
      · exfalso
        have hob : fs.openOk f "a" = false := by
          revert ho; cases fs.openOk f "a" <;> simp
        have hfalse : stdoutProceeds fs parts = false := by
          simp [stdoutProceeds, hP, hfile, hmode, hob]
        rw [hfalse] at h1; cases h1
  · by_cases hB : (">" ∈ parts ∨ "1>" ∈ parts)
    · push_neg at hA
      have hP : stdoutPresent parts = true := by
        rcases hB with h | h <;> simp [stdoutPresent, h]
      have hcut : stdoutCut parts = writeOpIdx parts := by
        rcases hB with h | h <;> simp [stdoutCut, hA.1, hA.2, h]
      have hmode : stdoutMode parts = "w" := by
        simp [stdoutMode, hA.1, hA.2]
      rcases hg : parts[writeOpIdx parts + 1]? with _ | f
      · exfalso
        have hfalse : stdoutProceeds fs parts = false := by
          simp [stdoutProceeds, hP, stdoutFile, hcut, hg]
        rw [hfalse] at h1; cases h1
      · have hfile : stdoutFile parts = some f := by simp [stdoutFile, hcut, hg]
        by_cases ho : fs.openOk f "w"
        · have htgt : stdoutTargetOf parts = Target.file f "w" := by
            simp [stdoutTargetOf, hP, hfile, hmode]
          have has := afterStdout_proceeds env fs cwd parts (parts.take (writeOpIdx parts))
            (Target.file f "w") (hle _) h2
          have harg : (parts.take (writeOpIdx parts)).take (stderrCut parts) =
              dispatchArgv parts := by
            rw [List.take_take, dispatchArgv, hcut, Nat.min_comm]
          rw [harg] at has
          have hfm : finMain env fs cwd parts =
              finishExec env fs cwd (dispatchArgv parts) (Target.file f "w")
                (stderrTargetOf parts) := by
            rw [finMain, htgt]
          rw [htgt, hfm]
          rcases hG : finishExec env fs cwd (dispatchArgv parts) (Target.file f "w")
              (stderrTargetOf parts) with ⟨es, rest⟩
          rw [hG] at has
          rcases hB with h | h <;> simp [executeParts, hA.1, hA.2, h, hg, ho, has, targetOpens]
        · exfalso
          have hob : fs.openOk f "w" = false := by
            revert ho; cases fs.openOk f "w" <;> simp
          have hfalse : stdoutProceeds fs parts = false := by
            simp [stdoutProceeds, hP, hfile, hmode, hob]
          rw [hfalse] at h1; cases h1
    · push_neg at hA hB
      have hP : stdoutPresent parts = false := by
        simp [stdoutPresent, hA.1, hA.2, hB.1, hB.2]
      have hcut : stdoutCut parts = parts.length := by
        simp [stdoutCut, hA.1, hA.2, hB.1, hB.2]
      have htgt : stdoutTargetOf parts = Target.stdoutInherit := by
        simp [stdoutTargetOf, hP]
      have harg : parts.take (stderrCut parts) = dispatchArgv parts := by
        rw [dispatchArgv, hcut, Nat.min_eq_right (stderrCut_le parts)]
      have has := afterStdout_proceeds env fs cwd parts parts Target.stdoutInherit
        (le_refl _) h2
      rw [harg] at has
      have hfm : finMain env fs cwd parts =
          finishExec env fs cwd (dispatchArgv parts) Target.stdoutInherit
            (stderrTargetOf parts) := by
        rw [finMain, htgt]
      rw [htgt, hfm]
      rcases hG : finishExec env fs cwd (dispatchArgv parts) Target.stdoutInherit
          (stderrTargetOf parts) with ⟨es, rest⟩
      rw [hG] at has
      simp [executeParts, hA.1, hA.2, hB.1, hB.2, has, targetOpens]

theorem executeParts_abort1 (env : Env) (fs : FS) (cwd : String) (parts : List String)
    (h1 : stdoutProceeds fs parts = false) :
    executeParts env fs cwd parts =
        ([Ev.write Target.stderrInherit msgStdoutAppendErr], cwd, Outcome.ok) ∨
    executeParts env fs cwd parts =
        ([Ev.write Target.stderrInherit msgStdoutErr], cwd, Outcome.ok) := by
  by_cases hA : (">>" ∈ parts ∨ "1>>" ∈ parts)
  · left
    have hP : stdoutPresent parts = true := by
      rcases hA with h | h <;> simp [stdoutPresent, h]
    have hcut : stdoutCut parts = appendOpIdx parts := by
      rcases hA with h | h <;> simp [stdoutCut, h]
    have hmode : stdoutMode parts = "a" := by
      rcases hA with h | h <;> simp [stdoutMode, h]
    rcases hg : parts[appendOpIdx parts + 1]? with _ | f
    · rcases hA with h | h <;> simp [executeParts, h, hg]
    · have hfile : stdoutFile parts = some f := by simp [stdoutFile, hcut, hg]
      have ho : fs.openOk f "a" = false := by
        rcases hb : fs.openOk f "a"
        · rfl
        · exfalso
          have htrue : stdoutProceeds fs parts = true := by
            simp [stdoutProceeds, hfile, hmode, hb]
          rw [htrue] at h1; cases h1
      rcases hA with h | h <;> simp [executeParts, h, hg, ho]
  · by_cases hB : (">" ∈ parts ∨ "1>" ∈ parts)
    · right
      push_neg at hA
      have hP : stdoutPresent parts = true := by
        rcases hB with h | h <;> simp [stdoutPresent, h]
      have hcut : stdoutCut parts = writeOpIdx parts := by
        rcases hB with h | h <;> simp [stdoutCut, hA.1, hA.2, h]
      have hmode : stdoutMode parts = "w" := by
        simp [stdoutMode, hA.1, hA.2]
      rcases hg : parts[writeOpIdx parts + 1]? with _ | f
      · rcases hB with h | h <;> simp [executeParts, hA.1, hA.2, h, hg]
      · have hfile : stdoutFile parts = some f := by simp [stdoutFile, hcut, hg]
        have ho : fs.openOk f "w" = false := by
          rcases hb : fs.openOk f "w"
          · rfl
          · exfalso
            have htrue : stdoutProceeds fs parts = true := by
              simp [stdoutProceeds, hfile, hmode, hb]
            rw [htrue] at h1; cases h1
        rcases hB with h | h <;> simp [executeParts, hA.1, hA.2, h, hg, ho]
    · exfalso
      push_neg at hA hB
      have htrue : stdoutProceeds fs parts = true := by
        simp [stdoutProceeds, stdoutPresent, hA.1, hA.2, hB.1, hB.2]
      rw [htrue] at h1; cases h1

theorem executeParts_abort2 (env : Env) (fs : FS) (cwd : String) (parts : List String)
    (h1 : stdoutProceeds fs parts = true) (h2 : stderrProceeds fs parts = false) :
    executeParts env fs cwd parts =
        (targetOpens (stdoutTargetOf parts) ++
          [Ev.write Target.stderrInherit msgStderrAppendErr], cwd, Outcome.ok) ∨
    executeParts env fs cwd parts =
        (targetOpens (stdoutTargetOf parts) ++
          [Ev.write Target.stderrInherit msgStderrErr], cwd, Outcome.ok) := by
  by_cases hA : (">>" ∈ parts ∨ "1>>" ∈ parts)
  · have hP : stdoutPresent parts = true := by
      rcases hA with h | h <;> simp [stdoutPresent, h]
    have hcut : stdoutCut parts = appendOpIdx parts := by
      rcases hA with h | h <;> simp [stdoutCut, h]
    have hmode : stdoutMode parts = "a" := by
      rcases hA with h | h <;> simp [stdoutMode, h]
    rcases hg : parts[appendOpIdx parts + 1]? with _ | f
    · exfalso
      have hfalse : stdoutProceeds fs parts = false := by
        simp [stdoutProceeds, hP, stdoutFile, hcut, hg]
      rw [hfalse] at h1; cases h1
    · have hfile : stdoutFile parts = some f := by simp [stdoutFile, hcut, hg]
      by_cases ho : fs.openOk f "a"
      · have htgt : stdoutTargetOf parts = Target.file f "a" := by
          simp [stdoutTargetOf, hP, hfile, hmode]
        rcases afterStdout_abort env fs cwd parts (parts.take (appendOpIdx parts))
            (Target.file f "a") h2 with hab | hab
        · left; rw [htgt]
          rcases hA with h | h <;> simp [executeParts, h, hg, ho, hab, targetOpens]
        · right; rw [htgt]
          rcases hA with h | h <;> simp [executeParts, h, hg, ho, hab, targetOpens]
      · exfalso
        have hob : fs.openOk f "a" = false := by
          revert ho; cases fs.openOk f "a" <;> simp
        have hfalse : stdoutProceeds fs parts = false := by
          simp [stdoutProceeds, hP, hfile, hmode, hob]
        rw [hfalse] at h1; cases h1
  · by_cases hB : (">" ∈ parts ∨ "1>" ∈ parts)
    · push_neg at hA
      have hP : stdoutPresent parts = true := by
        rcases hB with h | h <;> simp [stdoutPresent, h]
      have hcut : stdoutCut parts = writeOpIdx parts := by
        rcases hB with h | h <;> simp [stdoutCut, hA.1, hA.2, h]
      have hmode : stdoutMode parts = "w" := by
        simp [stdoutMode, hA.1, hA.2]
      rcases hg : parts[writeOpIdx parts + 1]? with _ | f
      · exfalso
        have hfalse : stdoutProceeds fs parts = false := by
          simp [stdoutProceeds, hP, stdoutFile, hcut, hg]
        rw [hfalse] at h1; cases h1
      · have hfile : stdoutFile parts = some f := by simp [stdoutFile, hcut, hg]
        by_cases ho : fs.openOk f "w"
        · have htgt : stdoutTargetOf parts = Target.file f "w" := by
            simp [stdoutTargetOf, hP, hfile, hmode]
          rcases afterStdout_abort env fs cwd parts (parts.take (writeOpIdx parts))
              (Target.file f "w") h2 with hab | hab
          · left; rw [htgt]
            rcases hB with h | h <;> simp [executeParts, hA.1, hA.2, h, hg, ho, hab, targetOpens]
          · right; rw [htgt]
            rcases hB with h | h <;> simp [executeParts, hA.1, hA.2, h, hg, ho, hab, targetOpens]
        · exfalso
          have hob : fs.openOk f "w" = false := by
            revert ho; cases fs.openOk f "w" <;> simp
          have hfalse : stdoutProceeds fs parts = false := by
            simp [stdoutProceeds, hP, hfile, hmode, hob]
          rw [hfalse] at h1; cases h1
    · push_neg at hA hB
      have hP : stdoutPresent parts = false := by
        simp [stdoutPresent, hA.1, hA.2, hB.1, hB.2]
      have htgt : stdoutTargetOf parts = Target.stdoutInherit := by
        simp [stdoutTargetOf, hP]
      rcases afterStdout_abort env fs cwd parts parts Target.stdoutInherit h2 with hab | hab
      · left; rw [htgt]
        simp [executeParts, hA.1, hA.2, hB.1, hB.2, hab, targetOpens]
      · right; rw [htgt]
        simp [executeParts, hA.1, hA.2, hB.1, hB.2, hab, targetOpens]

theorem ep_dispatch_iff (env : Env) (fs : FS) (cwd : String) (parts a : List String) :
    Ev.dispatch a ∈ (executeParts env fs cwd parts).1 ↔
      (stdoutProceeds fs parts = true ∧ stderrProceeds fs parts = true ∧
        a = dispatchArgv parts) := by
  by_cases h1 : stdoutProceeds fs parts = true
  · by_cases h2 : stderrProceeds fs parts = true
    · rw [executeParts_proceeds env fs cwd parts h1 h2]
      simp only [List.mem_append]
      constructor
      · rintro ((h | h) | h)
        · rcases targetOpens_mem h with ⟨_, _, _, he⟩; cases he
        · rcases targetOpens_mem h with ⟨_, _, _, he⟩; cases he
        · exact ⟨h1, h2, (fin_dispatch_iff _ _ _ _ _ _ _).mp h⟩
      · rintro ⟨-, -, ha⟩
        exact Or.inr ((fin_dispatch_iff _ _ _ _ _ _ _).mpr ha)
    · have h2f : stderrProceeds fs parts = false := by
        revert h2; cases stderrProceeds fs parts <;> simp
      apply iff_of_false
      · intro h
        rcases executeParts_abort2 env fs cwd parts h1 h2f with hab | hab <;>
          rw [hab] at h <;> rcases List.mem_append.mp h with h | h <;>
          first
            | (rcases targetOpens_mem h with ⟨_, _, _, he⟩; cases he)
            | simp at h
      · rintro ⟨-, hh2, -⟩
        rw [h2f] at hh2; cases hh2
  · have h1f : stdoutProceeds fs parts = false := by
      revert h1; cases stdoutProceeds fs parts <;> simp
    apply iff_of_false
    · intro h
      rcases executeParts_abort1 env fs cwd parts h1f with hab | hab <;>
        rw [hab] at h <;> simp at h
    · rintro ⟨hh1, -, -⟩
      rw [h1f] at hh1; cases hh1

theorem ec_notfound (env : Env) (fs : FS) (cwd : String) (name : String)
    (args : List String) (t1 t2 : Target)
    (hnb : name ∉ registryNames) (hf : find_executable env fs name = none) :
    execCommand env fs cwd (name :: args) t1 t2 =
      ([Ev.dispatch (name :: args), Ev.write t2 (name ++ ": command not found")],
        cwd, Outcome.ok) := by
  simp only [registryNames, List.mem_cons, List.not_mem_nil, or_false, not_or] at hnb
  unfold execCommand
  simp [hnb.1, hnb.2.1, hnb.2.2.1, hnb.2.2.2.1, hnb.2.2.2.2, run_external_command, hf]

theorem finMain_ok_close (env : Env) (fs : FS) (cwd : String) (parts : List String)
    (p m : String) (hok : (finMain env fs cwd parts).2.2 = Outcome.ok)
    (ht : stdoutTargetOf parts = Target.file p m ∨ stderrTargetOf parts = Target.file p m) :
    Ev.closeFile p m ∈ (finMain env fs cwd parts).1 :=
  fin_ok_close env fs cwd (dispatchArgv parts) (stdoutTargetOf parts) (stderrTargetOf parts)
    p m hok ht

theorem finMain_no_open (env : Env) (fs : FS) (cwd : String) (parts : List String)
    (p m : String) : Ev.openFile p m ∉ (finMain env fs cwd parts).1 :=
  fin_no_open env fs cwd (dispatchArgv parts) (stdoutTargetOf parts) (stderrTargetOf parts) p m

theorem executeParts_abort_facts (env : Env) (fs : FS) (cwd : String) (parts : List String)
    (hna : ¬(stdoutProceeds fs parts = true ∧ stderrProceeds fs parts = true)) :
    (∀ a, Ev.dispatch a ∉ (executeParts env fs cwd parts).1) ∧
    (∃ msg, Ev.write Target.stderrInherit msg ∈ (executeParts env fs cwd parts).1) ∧
    (∀ a u v, Ev.spawn a u v ∉ (executeParts env fs cwd parts).1) := by
  by_cases h1 : stdoutProceeds fs parts = true
  · have h2f : stderrProceeds fs parts = false := by
      rcases hb : stderrProceeds fs parts
      · rfl
      · exact absurd ⟨h1, hb⟩ hna
    rcases executeParts_abort2 env fs cwd parts h1 h2f with hab | hab
    · rw [hab]
      refine ⟨?_, ⟨msgStderrAppendErr, by simp⟩, ?_⟩
      · intro a h
        rcases List.mem_append.mp h with h | h
        · rcases targetOpens_mem h with ⟨_, _, _, he⟩; cases he
        · simp at h
      · intro a u v h
        rcases List.mem_append.mp h with h | h
        · rcases targetOpens_mem h with ⟨_, _, _, he⟩; cases he
        · simp at h
    · rw [hab]
      refine ⟨?_, ⟨msgStderrErr, by simp⟩, ?_⟩
      · intro a h
        rcases List.mem_append.mp h with h | h
        · rcases targetOpens_mem h with ⟨_, _, _, he⟩; cases he
        · simp at h
      · intro a u v h
        rcases List.mem_append.mp h with h | h
        · rcases targetOpens_mem h with ⟨_, _, _, he⟩; cases he
        · simp at h
  · have h1f : stdoutProceeds fs parts = false := by
      rcases hb : stdoutProceeds fs parts
      · rfl
      · exact absurd hb h1
    rcases executeParts_abort1 env fs cwd parts h1f with hab | hab
    · rw [hab]
      exact ⟨fun a h => by simp at h, ⟨msgStdoutAppendErr, by simp⟩, fun a u v h => by simp at h⟩
    · rw [hab]
      exact ⟨fun a h => by simp at h, ⟨msgStdoutErr, by simp⟩, fun a u v h => by simp at h⟩

/-- C1, corrected form: whenever dispatch occurs, the argument vector passed
to `_execute_command` is the token list cut at the position of the operator
occurrence chosen by the fixed search order for each class (append operators
checked before truncate operators), *not* at the earliest operator of the
token sequence. -/
theorem C1_thm (env : Env) (fs : FS) (cwd : String) (parts argv : List String)
    (h : Ev.dispatch argv ∈ (executeParts env fs cwd parts).1) :
    argv = parts.take (min (stdoutCut parts) (stderrCut parts)) :=
  ((ep_dispatch_iff env fs cwd parts argv).mp h).2.2

/-- Witness for C1_thm at a concrete input with both `>` and `>>` present. -/
theorem C1_thm_witness :
    ["echo", "a", ">", "f1"] =
      (["echo", "a", ">", "f1", ">>", "f2"] : List String).take
        (min (stdoutCut ["echo", "a", ">", "f1", ">>", "f2"])
          (stderrCut ["echo", "a", ">", "f1", ">>", "f2"])) :=
  C1_thm env0 fs0 "/w" ["echo", "a", ">", "f1", ">>", "f2"] ["echo", "a", ">", "f1"]
    (by decide)

/-- C1 counterexample: on `echo a > f1 >> f2` the claim predicts argument
vector `["echo", "a"]` and target `f1` in truncate mode (first stdout operator
wins), but the code dispatches `["echo", "a", ">", "f1"]` and opens `f2` in
append mode: the later `>>` wins over the earlier `>`. -/
theorem C1_cex :
    Ev.dispatch ["echo", "a", ">", "f1"] ∈
        (executeParts env0 fs0 "/w" ["echo", "a", ">", "f1", ">>", "f2"]).1 ∧
    Ev.dispatch ["echo", "a"] ∉
        (executeParts env0 fs0 "/w" ["echo", "a", ">", "f1", ">>", "f2"]).1 ∧
    Ev.openFile "f2" "a" ∈
        (executeParts env0 fs0 "/w" ["echo", "a", ">", "f1", ">>", "f2"]).1 ∧
    Ev.openFile "f1" "w" ∉
        (executeParts env0 fs0 "/w" ["echo", "a", ">", "f1", ">>", "f2"]).1 := by
  decide

/-- C2, corrected form: when dispatch occurs and completes normally, every
opened redirection file is closed afterwards; and when a redirection open
fails, dispatch does not occur — but (see C2_cex) an already-opened file of
the other class is then left unclosed, and a propagating `SystemExit` also
skips the closes. -/
theorem C2_thm (env : Env) (fs : FS) (cwd : String) (parts : List String) :
    (∀ argv p m, Ev.dispatch argv ∈ (executeParts env fs cwd parts).1 →
      (executeParts env fs cwd parts).2.2 = Outcome.ok →
      Ev.openFile p m ∈ (executeParts env fs cwd parts).1 →
      Ev.closeFile p m ∈ (executeParts env fs cwd parts).1) ∧
    (stderrProceeds fs parts = false →
      ∀ a, Ev.dispatch a ∉ (executeParts env fs cwd parts).1) := by
  constructor
  · intro argv p m hd hok hop
    obtain ⟨h1, h2, -⟩ := (ep_dispatch_iff env fs cwd parts argv).mp hd
    rw [executeParts_proceeds env fs cwd parts h1 h2] at hok hop ⊢
    have hok2 : (finMain env fs cwd parts).2.2 = Outcome.ok := hok
    simp only [List.mem_append] at hop ⊢
    rcases hop with (hop | hop) | hop
    · rcases targetOpens_mem hop with ⟨p2, m2, ht, he⟩
      injection he with hp hm
      subst hp; subst hm
      exact Or.inr (finMain_ok_close env fs cwd parts p m hok2 (Or.inl ht))
    · rcases targetOpens_mem hop with ⟨p2, m2, ht, he⟩
      injection he with hp hm
      subst hp; subst hm
      exact Or.inr (finMain_ok_close env fs cwd parts p m hok2 (Or.inr ht))
    · exact absurd hop (finMain_no_open env fs cwd parts p m)
  · intro hf a hd
    obtain ⟨-, h2, -⟩ := (ep_dispatch_iff env fs cwd parts a).mp hd
    rw [hf] at h2; cases h2

/-- Witness for C2_thm: a normal dispatch with a stdout redirection closes the
opened file. -/
theorem C2_thm_witness :
    Ev.closeFile "ok" "w" ∈ (executeParts env0 fs0 "/w" ["echo", "hi", ">", "ok"]).1 :=
  (C2_thm env0 fs0 "/w" ["echo", "hi", ">", "ok"]).1 ["echo", "hi"] "ok" "w"
    (by decide) (by decide) (by decide)

/-- C2 counterexample: if the stderr-class open fails after the stdout-class
file was opened, `execute` returns without closing the already-opened file —
the trace records the open and the error report, but no close. -/
theorem C2_cex :
    (executeParts env0 fs1 "/w" ["echo", "hi", ">", "ok", "2>", "bad"]).1 =
      [Ev.openFile "ok" "w", Ev.write Target.stderrInherit msgStderrErr] ∧
    Ev.closeFile "ok" "w" ∉
      (executeParts env0 fs1 "/w" ["echo", "hi", ">", "ok", "2>", "bad"]).1 := by
  decide

/-- C6, confirmed: a line invoking a name that is neither registered as a
built-in nor resolvable on the search path writes `"<name>: command not
found"` to the acquired stderr target (the redirection file when `2>` was
given) and spawns nothing. -/
theorem C6_thm (env : Env) (fs : FS) (cwd : String) (parts : List String)
    (name : String) (args : List String)
    (h1 : stdoutProceeds fs parts = true) (h2 : stderrProceeds fs parts = true)
    (h3 : dispatchArgv parts = name :: args)
    (h4 : name ∉ registryNames) (h5 : find_executable env fs name = none) :
    Ev.write (stderrTargetOf parts) (name ++ ": command not found") ∈
        (executeParts env fs cwd parts).1 ∧
    ∀ a u v, Ev.spawn a u v ∉ (executeParts env fs cwd parts).1 := by
  have hec := ec_notfound env fs cwd name args (stdoutTargetOf parts)
    (stderrTargetOf parts) h4 h5
  have hfin : finMain env fs cwd parts =
      ([Ev.dispatch (name :: args),
        Ev.write (stderrTargetOf parts) (name ++ ": command not found")] ++
        targetCloses (stdoutTargetOf parts) ++ targetCloses (stderrTargetOf parts),
       cwd, Outcome.ok) := by
    rw [finMain, h3]
    unfold finishExec
    rw [hec]
  have htr : (executeParts env fs cwd parts).1 =
      targetOpens (stdoutTargetOf parts) ++ targetOpens (stderrTargetOf parts) ++
        ([Ev.dispatch (name :: args),
          Ev.write (stderrTargetOf parts) (name ++ ": command not found")] ++
          targetCloses (stdoutTargetOf parts) ++ targetCloses (stderrTargetOf parts)) := by
    rw [executeParts_proceeds env fs cwd parts h1 h2, hfin]
  rw [htr]
  constructor
  · simp
  · intro a u v hm
    simp only [List.mem_append] at hm
    rcases hm with (hm | hm) | (hm | hm) | hm
    · rcases targetOpens_mem hm with ⟨_, _, _, he⟩; cases he
    · rcases targetOpens_mem hm with ⟨_, _, _, he⟩; cases he
    · simp at hm
    · rcases targetCloses_mem hm with ⟨_, _, _, he⟩; cases he
    · rcases targetCloses_mem hm with ⟨_, _, _, he⟩; cases he

/-- Witness for C6_thm: `nope 2> e` writes the not-found report into the
opened file target `e`, not the inherited stderr. -/
theorem C6_thm_witness :
    Ev.write (stderrTargetOf ["nope", "2>", "e"]) ("nope" ++ ": command not found") ∈
      (executeParts env0 fs0 "/w" ["nope", "2>", "e"]).1 :=
  (C6_thm env0 fs0 "/w" ["nope", "2>", "e"] "nope" []
    (by decide) (by decide) (by decide) (by decide) (by decide)).1

/-- C7, corrected form: the invocation is aborted — no dispatch, no spawn,
an error on the pre-redirection stderr — when the operator occurrence
*selected by the fixed search order* has no following token.  (A trailing
operator that is not the selected occurrence is ignored; see C7_cex.) -/
theorem C7_thm (env : Env) (fs : FS) (cwd : String) (parts : List String)
    (h : (stdoutPresent parts = true ∧ stdoutFile parts = none) ∨
         (stderrPresent parts = true ∧ stderrFile parts = none)) :
    (∀ a, Ev.dispatch a ∉ (executeParts env fs cwd parts).1) ∧
    (∃ msg, Ev.write Target.stderrInherit msg ∈ (executeParts env fs cwd parts).1) ∧
    (∀ a u v, Ev.spawn a u v ∉ (executeParts env fs cwd parts).1) := by
  apply executeParts_abort_facts
  rintro ⟨h1, h2⟩
  rcases h with ⟨hp, hf⟩ | ⟨hp, hf⟩
  · simp [stdoutProceeds, hp, hf] at h1
  · simp [stderrProceeds, hp, hf] at h2

/-- Witness for C7_thm: `echo >` (selected operator `>` is the last token)
aborts with no dispatch. -/
theorem C7_thm_witness :
    Ev.dispatch ["echo"] ∉ (executeParts env0 fs0 "/w" ["echo", ">"]).1 ∧
    Ev.write Target.stderrInherit msgStdoutErr ∈
      (executeParts env0 fs0 "/w" ["echo", ">"]).1 := by
  have h := C7_thm env0 fs0 "/w" ["echo", ">"] (Or.inl (by decide))
  exact ⟨h.1 ["echo"], by decide⟩

/-- C7 counterexample: in `echo > f >` the last token is a redirection
operator, yet the invocation is *not* aborted — the first `>` is the selected
occurrence, `f` is opened, and dispatch occurs. -/
theorem C7_cex :
    List.getLast? ["echo", ">", "f", ">"] = some ">" ∧
    Ev.dispatch ["echo"] ∈ (executeParts env0 fs0 "/w" ["echo", ">", "f", ">"]).1 ∧
    Ev.openFile "f" "w" ∈ (executeParts env0 fs0 "/w" ["echo", ">", "f", ">"]).1 := by
  decide

/-- C10, corrected form: when the *selected* stdout-class operator is followed
by a filename token and the open succeeds, the target file is opened (the very
first recorded effect, i.e. before dispatch is attempted), regardless of the
resulting argument vector or command resolution. -/
theorem C10_thm (env : Env) (fs : FS) (cwd : String) (parts : List String) (f : String)
    (h1 : stdoutPresent parts = true)
    (h2 : stdoutFile parts = some f)
    (h3 : fs.openOk f (stdoutMode parts) = true) :
    (executeParts env fs cwd parts).1.head? = some (Ev.openFile f (stdoutMode parts)) := by
  unfold stdoutFile at h2
  by_cases hA : (">>" ∈ parts ∨ "1>>" ∈ parts)
  · have hcut : stdoutCut parts = appendOpIdx parts := by
      rcases hA with hh | hh <;> simp [stdoutCut, hh]
    have hmode : stdoutMode parts = "a" := by
      rcases hA with hh | hh <;> simp [stdoutMode, hh]
    rw [hcut] at h2
    rw [hmode] at h3 ⊢
    rcases hr : afterStdout env fs cwd parts (parts.take (appendOpIdx parts))
        (Target.file f "a") with ⟨es, rest⟩
    rcases hA with hh | hh <;> simp [executeParts, hh, h2, h3, hr]
  · by_cases hB : (">" ∈ parts ∨ "1>" ∈ parts)
    · push_neg at hA
      have hcut : stdoutCut parts = writeOpIdx parts := by
        rcases hB with hh | hh <;> simp [stdoutCut, hA.1, hA.2, hh]
      have hmode : stdoutMode parts = "w" := by
        simp [stdoutMode, hA.1, hA.2]
      rw [hcut] at h2
      rw [hmode] at h3 ⊢
      rcases hr : afterStdout env fs cwd parts (parts.take (writeOpIdx parts))
          (Target.file f "w") with ⟨es, rest⟩
      rcases hB with hh | hh <;> simp [executeParts, hA.1, hA.2, hh, h2, h3, hr]
    · exfalso
      push_neg at hA hB
      rw [stdoutPresent] at h1
      simp [hA.1, hA.2, hB.1, hB.2] at h1

/-- Witness for C10_thm: `> out` (empty argument vector) still creates and
truncates `out` before dispatch. -/
theorem C10_thm_witness :
    (executeParts env0 fs0 "/w" [">", "out"]).1.head? =
      some (Ev.openFile "out" (stdoutMode [">", "out"])) :=
  C10_thm env0 fs0 "/w" [">", "out"] "out" (by decide) (by decide) (by decide)

/-- C10 counterexample: `cmd > f >>` contains the stdout-class operator `>`
followed by the filename token `f`, yet no file is opened at all — the fixed
search order selects the trailing `>>`, whose missing filename aborts the
whole invocation before any open. -/
theorem C10_cex :
    (["cmd", ">", "f", ">>"] : List String).contains ">" = true ∧
    (["cmd", ">", "f", ">>"] : List String)[(["cmd", ">", "f", ">>"] :
        List String).indexOf ">" + 1]? = some "f" ∧
    (executeParts env0 fs0 "/w" ["cmd", ">", "f", ">>"]).1 =
      [Ev.write Target.stderrInherit msgStdoutAppendErr] ∧
    Ev.openFile "f" "w" ∉ (executeParts env0 fs0 "/w" ["cmd", ">", "f", ">>"]).1 ∧
    Ev.openFile "f" "a" ∉ (executeParts env0 fs0 "/w" ["cmd", ">", "f", ">>"]).1 := by
  decide

theorem findExecGo_none (fs : FS) (name : String) :
    ∀ ds, findExecGo fs name ds = none ↔ ∀ d ∈ ds, execOk fs name d = false := by
  intro ds
  induction ds with
  | nil => simp [findExecGo]
  | cons p ps ih =>
    unfold findExecGo
    by_cases h : execOk fs name p = true
    · rw [if_pos h]
      simp only [List.mem_cons]
      constructor
      · intro hc; cases hc
      · intro hall
        have hp := hall p (Or.inl rfl)
        rw [h] at hp; cases hp
    · rw [if_neg h]
      have hf : execOk fs name p = false := by
        revert h; cases execOk fs name p <;> simp
      rw [ih]
      constructor
      · intro hall d hd
        rcases List.mem_cons.mp hd with rfl | hd
        · exact hf
        · exact hall d hd
      · intro hall d hd
        exact hall d (List.mem_cons_of_mem _ hd)

theorem findExecGo_first (fs : FS) (name : String) :
    ∀ (ds : List String) (i : Nat), i < ds.length →
      execOk fs name (ds.getD i "") = true →
      (∀ j, j < i → execOk fs name (ds.getD j "") = false) →
      findExecGo fs name ds = some (os_path_join (ds.getD i "") name) := by
  intro ds
  induction ds with
  | nil => intro i hi; simp at hi
  | cons p ps ih =>
    intro i hi hok hmin
    cases i with
    | zero =>
      rw [List.getD_cons_zero] at hok ⊢
      unfold findExecGo
      rw [if_pos hok]
    | succ i2 =>
      have h0 : execOk fs name p = false := by
        have := hmin 0 (Nat.succ_pos _)
        rw [List.getD_cons_zero] at this
        exact this
      unfold findExecGo
      rw [if_neg (by simp [h0]), List.getD_cons_succ]
      apply ih i2 (by simpa using hi) (by simpa using hok)
      intro j hj
      have := hmin (j + 1) (by omega)
      rw [List.getD_cons_succ] at this
      exact this

/-- C5, corrected form: `find_executable` scans the split search-path entries
in order and returns the first `directory/name` that is a regular executable
file, `none` when no entry matches; but an unset or empty `PATH` splits into
the single empty entry, so the bare `name` is tested relative to the current
working directory instead of the resolution failing outright. -/
theorem C5_thm (env : Env) (fs : FS) (name : String) :
    (find_executable env fs name = none ↔
      ∀ d ∈ pathDirs env, execOk fs name d = false) ∧
    (∀ i, i < (pathDirs env).length →
      execOk fs name ((pathDirs env).getD i "") = true →
      (∀ j, j < i → execOk fs name ((pathDirs env).getD j "") = false) →
      find_executable env fs name =
        some (os_path_join ((pathDirs env).getD i "") name)) ∧
    (env.path.getD "" = "" →
      find_executable env fs name =
        (if fs.isFile name && fs.canExec name then some name else none)) := by
  refine ⟨findExecGo_none fs name (pathDirs env),
    fun i hi hok hmin => findExecGo_first fs name (pathDirs env) i hi hok hmin, ?_⟩
  intro hempty
  have hjoin : os_path_join "" name = name := by
    unfold os_path_join
    by_cases hs : strStartsWith name "/" = true
    · rw [if_pos hs]
    · rw [if_neg hs, if_pos rfl]
  have hsplit : splitColon "" = [""] := rfl
  unfold find_executable pathDirs
  rw [hempty, hsplit]
  unfold findExecGo execOk
  rw [hjoin]
  by_cases hb : (fs.isFile name && fs.canExec name) = true
  · rw [if_pos hb, if_pos hb]
  · rw [if_neg hb, if_neg hb]
    exact rfl

/-- Witness for C5_thm: with `PATH=/a:/b` and the executable present only in
`/b`, resolution skips `/a` and returns `/b/x`. -/
theorem C5_thm_witness : find_executable env4 fs4 "x" = some "/b/x" := by
  have h := (C5_thm env4 fs4 "x").2.1 1 (by decide) (by decide)
    (fun j hj => by
      have hj0 : j = 0 := Nat.lt_one_iff.mp hj
      subst hj0
      decide)
  have he : os_path_join ((pathDirs env4).getD 1 "") "x" = "/b/x" := by decide
  rw [he] at h
  exact h

/-- C5 counterexample: with the search-path variable unset, the split yields
one empty entry and `os.path.join("", "foo") == "foo"`, so a matching regular
executable file `foo` in the current directory is resolved — the claim's
"returns not-found whenever the variable is unset or empty" fails. -/
theorem C5_cex :
    env0.path = none ∧ find_executable env0 fs2 "foo" = some "foo" := by
  decide

theorem execCommand_exit (env : Env) (fs : FS) (cwd : String) (args : List String)
    (t1 t2 : Target) :
    execCommand env fs cwd ("exit" :: args) t1 t2 =
      ([Ev.dispatch ("exit" :: args)], cwd, Outcome.exited (exitStatus args)) := by
  have e1 : ("exit" : String) ≠ "echo" := by decide
  simp [execCommand, e1]

theorem executeParts_exit1 (env : Env) (fs : FS) (cwd : String) (a : String)
    (hdig : pyIsDigit a = true) :
    executeParts env fs cwd ["exit", a] =
      ([Ev.dispatch ["exit", a]], cwd, Outcome.exited (pyParseNat a)) := by
  have hnotop : ∀ s : String, s ≠ "exit" → pyIsDigit s = false →
      s ∉ (["exit", a] : List String) := by
    intro s hs1 hs2 hm
    rcases List.mem_cons.mp hm with he | hm
    · exact hs1 he
    · rcases List.mem_cons.mp hm with he | hm
      · subst he
        rw [hdig] at hs2; cases hs2
      · cases hm
  have h1 := hnotop ">>" (by decide) (by decide)
  have h2 := hnotop "1>>" (by decide) (by decide)
  have h3 := hnotop ">" (by decide) (by decide)
  have h4 := hnotop "1>" (by decide) (by decide)
  have h5 := hnotop "2>>" (by decide) (by decide)
  have h6 := hnotop "2>" (by decide) (by decide)
  have hex := execCommand_exit env fs cwd [a] Target.stdoutInherit Target.stderrInherit
  simp [executeParts, h1, h2, h3, h4, h5, h6, afterStdout, finishExec, hex,
    exitStatus, hdig]

theorem executeParts_exit0 (env : Env) (fs : FS) (cwd : String) :
    executeParts env fs cwd ["exit"] = ([Ev.dispatch ["exit"]], cwd, Outcome.exited 0) := by
  have h1 : (">>" : String) ∉ (["exit"] : List String) := by decide
  have h2 : ("1>>" : String) ∉ (["exit"] : List String) := by decide
  have h3 : (">" : String) ∉ (["exit"] : List String) := by decide
  have h4 : ("1>" : String) ∉ (["exit"] : List String) := by decide
  have h5 : ("2>>" : String) ∉ (["exit"] : List String) := by decide
  have h6 : ("2>" : String) ∉ (["exit"] : List String) := by decide
  have hex := execCommand_exit env fs cwd [] Target.stdoutInherit Target.stderrInherit
  simp [executeParts, h1, h2, h3, h4, h5, h6, afterStdout, finishExec, hex, exitStatus]

/-- C8, confirmed: the `exit` built-in terminates with the given status for
exactly one all-digits argument and with status 0 for no argument, a
non-numeric argument, or multiple arguments; the raised `SystemExit` passes
the REPL's `except Exception` and ends the process with that status. -/
theorem C8_thm (env : Env) (fs : FS) (cwd : String) (t1 t2 : Target) :
    (∀ a, pyIsDigit a = true →
      (execCommand env fs cwd ["exit", a] t1 t2).2.2 = Outcome.exited (pyParseNat a)) ∧
    ((execCommand env fs cwd ["exit"] t1 t2).2.2 = Outcome.exited 0) ∧
    (∀ a, pyIsDigit a = false →
      (execCommand env fs cwd ["exit", a] t1 t2).2.2 = Outcome.exited 0) ∧
    (∀ a b rest, (execCommand env fs cwd ("exit" :: a :: b :: rest) t1 t2).2.2 =
      Outcome.exited 0) ∧
    (∀ a ls, pyIsDigit a = true →
      (repl env fs cwd (["exit", a] :: ls)).2.2 = some (pyParseNat a)) ∧
    (∀ ls, (repl env fs cwd (["exit"] :: ls)).2.2 = some 0) := by
  refine ⟨?_, ?_, ?_, ?_, ?_, ?_⟩
  · intro a hdig
    rw [execCommand_exit]
    simp [exitStatus, hdig]
  · rw [execCommand_exit]
    simp [exitStatus]
  · intro a hdig
    rw [execCommand_exit]
    simp [exitStatus, hdig]
  · intro a b rest
    rw [execCommand_exit]
    simp [exitStatus]
  · intro a ls hdig
    rw [repl, executeParts_exit1 env fs cwd a hdig]
  · intro ls
    rw [repl, executeParts_exit0 env fs cwd]

/-- Witness for C8_thm: `exit 7` exits with status 7 (also through the REPL),
`exit abc` exits with status 0. -/
theorem C8_thm_witness :
    (execCommand env0 fs0 "/w" ["exit", "7"] Target.stdoutInherit
        Target.stderrInherit).2.2 = Outcome.exited 7 ∧
    (repl env0 fs0 "/w" [["exit", "7"]]).2.2 = some 7 ∧
    (execCommand env0 fs0 "/w" ["exit", "abc"] Target.stdoutInherit
        Target.stderrInherit).2.2 = Outcome.exited 0 := by
  have h := C8_thm env0 fs0 "/w" Target.stdoutInherit Target.stderrInherit
  have e7 : pyParseNat "7" = 7 := by decide
  refine ⟨?_, ?_, ?_⟩
  · have h1 := h.1 "7" (by decide)
    rw [e7] at h1
    exact h1
  · have h5 := h.2.2.2.2.1 "7" [] (by decide)
    rw [e7] at h5
    exact h5
  · exact h.2.2.1 "abc" (by decide)

/-- C9, confirmed: `cd` with a single nonexistent or non-directory argument
reports "No such file or directory" and leaves the working directory
unchanged; zero or multiple arguments report "cd: missing operand"; a
permission failure reports "Permission denied"; the argument `~` expands to
the home-directory environment value. -/
theorem C9_thm (env : Env) (fs : FS) (cwd : String) (t2 : Target) :
    (∀ p, p ≠ "~" → fs.isDir p = false →
      cdExec env fs cwd [p] t2 =
        ([Ev.write t2 ("cd: " ++ p ++ ": No such file or directory")], cwd)) ∧
    (cdExec env fs cwd [] t2 = ([Ev.write t2 "cd: missing operand"], cwd)) ∧
    (∀ a b rest, cdExec env fs cwd (a :: b :: rest) t2 =
      ([Ev.write t2 "cd: missing operand"], cwd)) ∧
    (∀ p, p ≠ "~" → fs.isDir p = true → fs.chdirOk p = false →
      cdExec env fs cwd [p] t2 =
        ([Ev.write t2 ("cd: " ++ p ++ ": Permission denied")], cwd)) ∧
    (∀ h, env.home = some h → cdExec env fs cwd ["~"] t2 = cdExec env fs cwd [h] t2) := by
  refine ⟨?_, ?_, ?_, ?_, ?_⟩
  · intro p hp hd
    simp [cdExec, hp, hd]
  · simp [cdExec]
  · intro a b rest
    have hlen : (a :: b :: rest).length ≠ 1 := by simp
    simp [cdExec, hlen]
  · intro p hp hd hperm
    simp [cdExec, hp, hd, hperm]
  · intro h hh
    by_cases hcase : h = "~"
    · subst hcase; rfl
    · simp [cdExec, hh, hcase]

/-- Witness for C9_thm: `cd /nx` on a filesystem without that directory
reports the error and keeps the working directory. -/
theorem C9_thm_witness :
    cdExec env0 fs0 "/w" ["/nx"] Target.stderrInherit =
      ([Ev.write Target.stderrInherit ("cd: " ++ "/nx" ++ ": No such file or directory")],
        "/w") :=
  (C9_thm env0 fs0 "/w" Target.stderrInherit).1 "/nx" (by decide) (by decide)

theorem lexLe_total : ∀ a b : List Char, lexLe a b = true ∨ lexLe b a = true := by
  intro a
  induction a with
  | nil => intro b; left; rfl
  | cons x xs ih =>
    intro b
    cases b with
    | nil => right; rfl
    | cons y ys =>
      rcases lt_trichotomy x y with h | h | h
      · left; simp [lexLe, h]
      · subst h
        rcases ih ys with h2 | h2
        · left; simp [lexLe, lt_irrefl x, h2]
        · right; simp [lexLe, lt_irrefl x, h2]
      · right; simp [lexLe, h]

theorem lexLe_trans :
    ∀ a b c : List Char, lexLe a b = true → lexLe b c = true → lexLe a c = true := by
  intro a
  induction a with
  | nil => intro b c _ _; rfl
  | cons x xs ih =>
    intro b c hab hbc
    cases b with
    | nil => simp [lexLe] at hab
    | cons y ys =>
      cases c with
      | nil => simp [lexLe] at hbc
      | cons z zs =>
        rcases lt_trichotomy x y with h1 | h1 | h1
        · rcases lt_trichotomy y z with h2 | h2 | h2
          · have h3 : x < z := lt_trans h1 h2
            simp [lexLe, h3]
          · subst h2; simp [lexLe, h1]
          · simp [lexLe, lt_asymm h2, ne_of_gt h2] at hbc
        · subst h1
          simp only [lexLe, lt_irrefl x, if_false, if_pos rfl] at hab
          rcases lt_trichotomy x z with h2 | h2 | h2
          · simp [lexLe, h2]
          · subst h2
            simp only [lexLe, lt_irrefl x, if_false, if_pos rfl] at hbc ⊢
            exact ih ys zs hab hbc
          · simp [lexLe, lt_asymm h2, ne_of_gt h2] at hbc
        · simp [lexLe, lt_asymm h1, ne_of_gt h1] at hab

instance : IsTotal String cmdLe := ⟨fun a b => lexLe_total a.data b.data⟩

instance : IsTrans String cmdLe :=
  ⟨fun a b c hab hbc => lexLe_trans a.data b.data c.data hab hbc⟩

/-- C4, corrected form: the completion candidate set equals the hardcoded
three-element builtin list of `completer` united with the completer's own
PATH enumeration, deduplicated and lexicographically sorted — `pwd` and `cd`
are not automatically candidates. -/
theorem C4_thm (env : Env) (fs : FS) :
    (∀ c, c ∈ allCommands env fs ↔ (c ∈ builtinsC ∨ c ∈ find_executables env fs)) ∧
    List.Sorted cmdLe (allCommands env fs) ∧
    (allCommands env fs).Nodup := by
  refine ⟨?_, ?_, ?_⟩
  · intro c
    unfold allCommands
    rw [List.mem_insertionSort, List.mem_dedup, List.mem_append]
  · exact List.sorted_insertionSort cmdLe _
  · have hperm := List.perm_insertionSort cmdLe ((builtinsC ++ find_executables env fs).dedup)
    exact hperm.nodup_iff.mpr (List.nodup_dedup _)

/-- Witness for C4_thm: `echo` is a candidate. -/
theorem C4_thm_witness : "echo" ∈ allCommands env0 fs0 :=
  ((C4_thm env0 fs0).1 "echo").mpr (Or.inl (by decide))

/-- C4 counterexample: the candidate set differs from the spec's "all
registered built-ins ∪ enumerate" — with an empty PATH, the registered
built-ins `pwd` and `cd` are not completion candidates. -/
theorem C4_cex :
    allCommands env0 fs0 ≠ specCandidateSet env0 fs0 ∧
    "pwd" ∈ registryNames ∧ "pwd" ∉ allCommands env0 fs0 ∧
    "cd" ∉ allCommands env0 fs0 := by
  decide

theorem press_single (env : Env) (fs : FS) (st0 : CState) (text : String) (c : String)
    (hne : text ≠ st0.last_text) (hm : matchesFor env fs text = [c]) :
    press env fs text st0 =
      ({ ret := some (c ++ " "), bell := false, shown := none },
       { matchList := [c], last_text := text, match_index := -1, tab_count := 0 }) := by
  simp [press, completer, hne, hm]

theorem press_lcp_ne (env : Env) (fs : FS) (st0 : CState) (text : String)
    (hne : text ≠ st0.last_text)
    (hlen : 1 < (matchesFor env fs text).length)
    (hlcp : longestCommonPfx (matchesFor env fs text) ≠ text) :
    press env fs text st0 =
      ({ ret := some (longestCommonPfx (matchesFor env fs text)), bell := false, shown := none },
       { matchList := matchesFor env fs text, last_text := text,
         match_index := -1, tab_count := 0 }) := by
  have hlen1 : (matchesFor env fs text).length ≠ 1 := by omega
  simp [press, completer, hne, hlen1, hlen, hlcp]

theorem press_stair1 (env : Env) (fs : FS) (st0 : CState) (text : String)
    (hne : text ≠ st0.last_text)
    (hlen : 1 < (matchesFor env fs text).length)
    (hlcp : longestCommonPfx (matchesFor env fs text) = text) :
    press env fs text st0 =
      ({ ret := none, bell := true, shown := none },
       { matchList := matchesFor env fs text, last_text := text,
         match_index := -1, tab_count := 1 }) := by
  have hlen1 : (matchesFor env fs text).length ≠ 1 := by omega
  simp [press, completer, hne, hlen1, hlen, hlcp]

theorem press_stair2 (env : Env) (fs : FS) (text : String) (M : List String) (mi : Int)
    (hlen : 1 < M.length) (hlcp : longestCommonPfx M = text) :
    press env fs text ⟨M, text, mi, 1⟩ =
      ({ ret := none, bell := false, shown := some M }, ⟨M, text, mi, 2⟩) := by
  have hlen1 : M.length ≠ 1 := by omega
  simp [press, completer, hlen1, hlen, hlcp]

theorem press_cycle (env : Env) (fs : FS) (text : String) (M : List String)
    (mi : Int) (tc : Nat)
    (hlen : 1 < M.length) (hlcp : longestCommonPfx M = text) (htc : 2 ≤ tc) :
    press env fs text ⟨M, text, mi, tc⟩ =
      ({ ret := some (M.getD ((mi + 1) % (M.length : Int)).toNat "" ++ " "),
         bell := false, shown := none },
       ⟨M, text, (mi + 1) % (M.length : Int), tc + 1⟩) := by
  have hlen1 : M.length ≠ 1 := by omega
  have ht1 : tc + 1 ≠ 1 := by omega
  have ht2 : tc + 1 ≠ 2 := by omega
  simp [press, completer, hlen1, hlen, hlcp, ht1, ht2]

theorem emod_succ_cycle (j : Int) (n : Nat) (hn : 1 < n) :
    ((j % (n : Int)) + 1) % (n : Int) = (j + 1) % (n : Int) := by
  conv_rhs => rw [Int.add_emod]
  have h1 : (1 : Int) % (n : Int) = 1 :=
    Int.emod_eq_of_lt (by norm_num) (by exact_mod_cast hn)
  rw [h1]

theorem cycIdx_toNat (len : Nat) (hn : 1 < len) :
    ∀ k, ((cycIdx len k + 1) % (len : Int)).toNat = k % len := by
  intro k
  cases k with
  | zero =>
    show ((-1 + 1) % (len : Int)).toNat = 0 % len
    norm_num
  | succ j =>
    show (((j : Int) % (len : Int) + 1) % (len : Int)).toNat = (j + 1) % len
    rw [emod_succ_cycle j len hn]
    have h2 : ((j : Int) + 1) % (len : Int) = (((j + 1) % len : Nat) : Int) := by
      push_cast
      ring_nf
    rw [h2, Int.toNat_natCast]

theorem c3_stateN (env : Env) (fs : FS) (st0 : CState) (text : String)
    (hne : text ≠ st0.last_text)
    (hlen : 1 < (matchesFor env fs text).length)
    (hlcp : longestCommonPfx (matchesFor env fs text) = text) :
    ∀ k, pressN env fs text st0 (2 + k) =
      ⟨matchesFor env fs text, text, cycIdx (matchesFor env fs text).length k, 2 + k⟩ := by
  intro k
  induction k with
  | zero =>
    have h1 : pressN env fs text st0 1 = ⟨matchesFor env fs text, text, -1, 1⟩ := by
      show (press env fs text (pressN env fs text st0 0)).2 = _
      rw [show pressN env fs text st0 0 = st0 from rfl,
        press_stair1 env fs st0 text hne hlen hlcp]
    show (press env fs text (pressN env fs text st0 1)).2 = _
    rw [h1, press_stair2 env fs text (matchesFor env fs text) (-1) hlen hlcp]
    rfl
  | succ k2 ih =>
    show (press env fs text (pressN env fs text st0 (2 + k2))).2 = _
    rw [ih, press_cycle env fs text (matchesFor env fs text) _ _ hlen hlcp (by omega)]
    have harith : (cycIdx (matchesFor env fs text).length k2 + 1) %
        ((matchesFor env fs text).length : Int) =
        cycIdx (matchesFor env fs text).length (k2 + 1) := by
      cases k2 with
      | zero => norm_num [cycIdx]
      | succ j =>
        show ((j : Int) % ((matchesFor env fs text).length : Int) + 1) %
            ((matchesFor env fs text).length : Int) = _
        rw [emod_succ_cycle j (matchesFor env fs text).length hlen]
        rfl
    rw [harith]
    rfl

/-- C3, corrected form: for a press sequence whose first press carries text
different from the engine's previously stored text (so the match list is
recomputed), the claimed behavior holds: a unique match is returned with a
trailing separator; several matches with a strictly longer common prefix
return that prefix without advancing the press counter; with the common
prefix equal to the text the presses step through bell, list display, then
cycling with wraparound.  (At engine startup the stored text is empty, so an
empty-text sequence never refilters: see C3_cex.) -/
theorem C3_thm (env : Env) (fs : FS) (st0 : CState) (text : String)
    (hne : text ≠ st0.last_text) :
    (∀ c, matchesFor env fs text = [c] →
      (press env fs text st0).1 =
        { ret := some (c ++ " "), bell := false, shown := none }) ∧
    (1 < (matchesFor env fs text).length →
      text.length < (longestCommonPfx (matchesFor env fs text)).length →
      (press env fs text st0).1 =
        { ret := some (longestCommonPfx (matchesFor env fs text)),
          bell := false, shown := none } ∧
      (press env fs text st0).2.tab_count = 0) ∧
    (1 < (matchesFor env fs text).length →
      longestCommonPfx (matchesFor env fs text) = text →
      ((press env fs text st0).1 = { ret := none, bell := true, shown := none } ∧
       (press env fs text (pressN env fs text st0 1)).1 =
         { ret := none, bell := false, shown := some (matchesFor env fs text) } ∧
       ∀ k, (press env fs text (pressN env fs text st0 (2 + k))).1 =
         { ret := some ((matchesFor env fs text).getD
             (k % (matchesFor env fs text).length) "" ++ " "),
           bell := false, shown := none })) := by
  refine ⟨?_, ?_, ?_⟩
  · intro c hm
    rw [press_single env fs st0 text c hne hm]
  · intro hlen hlonger
    have hlcp : longestCommonPfx (matchesFor env fs text) ≠ text := by
      intro he
      rw [he] at hlonger
      exact lt_irrefl _ hlonger
    rw [press_lcp_ne env fs st0 text hne hlen hlcp]
    exact ⟨rfl, rfl⟩
  · intro hlen hlcp
    refine ⟨?_, ?_, ?_⟩
    · rw [press_stair1 env fs st0 text hne hlen hlcp]
    · have h1 : pressN env fs text st0 1 = ⟨matchesFor env fs text, text, -1, 1⟩ := by
        show (press env fs text (pressN env fs text st0 0)).2 = _
        rw [show pressN env fs text st0 0 = st0 from rfl,
          press_stair1 env fs st0 text hne hlen hlcp]
      rw [h1, press_stair2 env fs text (matchesFor env fs text) (-1) hlen hlcp]
    · intro k
      rw [c3_stateN env fs st0 text hne hlen hlcp k,
        press_cycle env fs text (matchesFor env fs text) _ _ hlen hlcp (by omega),
        cycIdx_toNat (matchesFor env fs text).length hlen k]

/-- Witness for C3_thm: with candidates `echo`, `exit`, `type`: text `ec` has
the unique match `echo`; text `e` has two matches with common prefix `e`, so
press 1 rings the bell and press 3 cycles to `echo `. -/
theorem C3_thm_witness :
    (press env0 fs0 "ec" initState).1 =
      { ret := some ("echo" ++ " "), bell := false, shown := none } ∧
    (press env0 fs0 "e" initState).1 = { ret := none, bell := true, shown := none } ∧
    (press env0 fs0 "e" (pressN env0 fs0 "e" initState (2 + 0))).1 =
      { ret := some ((matchesFor env0 fs0 "e").getD
          (0 % (matchesFor env0 fs0 "e").length) "" ++ " "),
        bell := false, shown := none } :=
  ⟨(C3_thm env0 fs0 initState "ec" (by decide)).1 "echo" (by decide),
   ((C3_thm env0 fs0 initState "e" (by decide)).2.2 (by decide) (by decide)).1,
   ((C3_thm env0 fs0 initState "e" (by decide)).2.2 (by decide) (by decide)).2.2 0⟩

/-- C3 counterexample: at engine startup the stored text is already the empty
string, so the very first empty-text press never computes the match list:
although more than one candidate matches the empty text and their common
prefix equals the text, the press produces no alert and does not advance the
counter — contrary to the claim's press-1 behavior. -/
theorem C3_cex :
    1 < (matchesFor env0 fs0 "").length ∧
    longestCommonPfx (matchesFor env0 fs0 "") = "" ∧
    (press env0 fs0 "" initState).1 = { ret := none, bell := false, shown := none } ∧
    (press env0 fs0 "" initState).2.tab_count = 0 := by
  decide
